import Mathlib

/-!
Shallow embedding of the VLisp front end (tokenizer and list builder) from
src/examples/VLisp/VLisp.cpp.

Source text is modelled as a `List Char`; the end of the list plays the role
of the NUL terminator of the C buffer, and a NUL character inside the list
also stops scanning, exactly as the C loop `while (*pEnd)` does.  The
pointers `pStart`, `pEnd` of the C code become `Nat` offsets into the
buffer.  Every C `assert` (which aborts the process) is modelled as an
`Except.error` value, and the error propagates so that no partial result is
returned.  The C library calls `strtol` / `strtof` are modelled by
executable parsers that follow the C standard's subject-sequence rules
(longest initial subsequence; for `strtof` that includes the hexadecimal,
`inf`/`infinity` and `nan` forms, case-insensitively).  Values of `float`
are represented as exact rationals (the binary rounding of `strtof`, and
the non-finite values produced for `inf`/`nan` inputs, are not modelled;
no theorem below inspects a value in those cases).
-/

set_option maxRecDepth 40000

namespace VLisp

/-- The NUL character that terminates a C string. -/
def nulChar : Char := Char.ofNat 0

/-- The whitespace characters handled by the tokenizer's switch
(space, newline, carriage return, tab). -/
def isWSChar (c : Char) : Bool := c = ' ' || c = '\n' || c = '\r' || c = '\t'

/-- `TokenType` from VLisp.cpp. -/
inductive TokenType where
  | NAME | STRING | LP | RP | I32 | F32
deriving DecidableEq, Repr

/-- `Token` from VLisp.cpp.  The pointer pair `pStart`/`pEnd` becomes the
offset pair `start`/`stop`; the `float f32` field is modelled as an exact
rational.  Aggregate initialization in the C code value-initializes omitted
members to zero, which the defaults below mirror. -/
structure Tok where
  type : TokenType
  start : Nat
  stop : Nat
  f32 : ℚ
  i32 : Int
deriving DecidableEq, Repr

/-- The substring of the buffer between two offsets, as the C code forms it
from a pointer pair. -/
def slice (buf : List Char) (s e : Nat) : List Char := (buf.take e).drop s

/-- Errors corresponding to the four `assert` calls reachable from
`tokenize` (each abort of the C program is one constructor). -/
inductive LexError where
  | f32NotAtEnd   -- assert(pC == pEnd - 3 && "f32 should be at the end")
  | f32ParseFail  -- assert(pEndPtr == pEnd - 3 && "error parsing f32")
  | i32NotAtEnd   -- assert(pC == pEnd - 3 && "i32 should be at the end")
  | i32ParseFail  -- assert(pEndPtr == pEnd - 3 && "error parsing i32")
  | unmatchedQuotes -- assert(!inString && "unmatched quotes")
deriving DecidableEq, Repr

/-- Error corresponding to `assert(nodeStack.size() && "unbalanced
parentheses")` in `getLists`. -/
inductive ParseError where
  | unbalancedParens
deriving DecidableEq, Repr

/-- The function `search` from VLisp.cpp: index of the first occurrence of
`pat` that fits entirely inside `run` (the C loop tries every start
position in order and requires the whole pattern to match before `pEnd`). -/
def searchFirst (run pat : List Char) : Option Nat :=
  (List.range run.length).find? (fun i => (run.drop i).take pat.length == pat)

/-- The pattern "f32" searched for by `appendText`. -/
def fPat : List Char := ['f', '3', '2']

/-- The pattern "i32" searched for by `appendText`. -/
def iPat : List Char := ['i', '3', '2']

/-- Decimal digit test. -/
def isDigitCh (c : Char) : Bool := '0' ≤ c && c ≤ '9'

/-- Hexadecimal digit test. -/
def isHexDigitCh (c : Char) : Bool :=
  isDigitCh c || ('a' ≤ c && c ≤ 'f') || ('A' ≤ c && c ≤ 'F')

/-- Maximal run of leading decimal digits. -/
def takeDigits (cs : List Char) : List Char := cs.takeWhile isDigitCh

/-- Numeric value of a decimal digit string. -/
def natOfDigits (ds : List Char) : Nat :=
  ds.foldl (fun a c => a * 10 + (c.toNat - '0'.toNat)) 0

/-- Numeric value of a hexadecimal digit. -/
def hexVal (c : Char) : Nat :=
  if isDigitCh c then c.toNat - '0'.toNat
  else if 'a' ≤ c && c ≤ 'f' then c.toNat - 'a'.toNat + 10
  else c.toNat - 'A'.toNat + 10

/-- Numeric value of a hexadecimal digit string. -/
def natOfHexDigits (ds : List Char) : Nat :=
  ds.foldl (fun a c => a * 16 + hexVal c) 0

/-- ASCII lower-casing, as used by the case-insensitive parts of `strtof`. -/
def lowerCh (c : Char) : Char :=
  if 'A' ≤ c && c ≤ 'Z' then Char.ofNat (c.toNat + 32) else c

/-- Case-insensitive prefix test (`pat` is given in lower case). -/
def ciPrefix (pat cs : List Char) : Bool := (cs.take pat.length).map lowerCh == pat

/-- Smallest value of the C `long` type (64-bit). -/
def longMin : Int := -(2 ^ 63)

/-- Largest value of the C `long` type (64-bit). -/
def longMax : Int := 2 ^ 63 - 1

/-- Saturation of `strtol` on range overflow. -/
def clampLong (v : Int) : Int := max longMin (min longMax v)

/-- Conversion of a `long` to `int32_t` as the assignment in `appendText`
performs it (two's-complement wrap-around). -/
def toInt32 (v : Int) : Int := ((v + 2 ^ 31) % 2 ^ 32) - 2 ^ 31

/-- Model of `strtol(cs, &end, 10)`: returns the number of characters
consumed (0 when no conversion is performed, in which case `endptr` is left
at the start) and the converted value as stored into the token's `int32_t`
field.  Text runs never contain whitespace (whitespace is a token
delimiter), so the initial whitespace skip of `strtol` is vacuous. -/
def strtolParse (cs : List Char) : Nat × Int :=
  let signLen : Nat := match cs with
    | '+' :: _ => 1
    | '-' :: _ => 1
    | _ => 0
  let sgn : Int := match cs with
    | '-' :: _ => -1
    | _ => 1
  let ds := takeDigits (cs.drop signLen)
  if ds.length = 0 then (0, 0)
  else (signLen + ds.length, toInt32 (clampLong (sgn * natOfDigits ds)))

/-- Exponent part of a floating literal: the marker (`e` or `p`,
case-insensitive), an optional sign, and at least one decimal digit;
returns the consumed length (0 when the form is absent or incomplete, in
which case `strtof` backtracks to the end of the mantissa) and the exponent
value. -/
def expPart (marker : Char) (cs : List Char) : Nat × Int :=
  match cs with
  | [] => (0, 0)
  | c :: rest =>
    if lowerCh c = marker then
      let esignLen : Nat := match rest with
        | '+' :: _ => 1
        | '-' :: _ => 1
        | _ => 0
      let esgn : Int := match rest with
        | '-' :: _ => -1
        | _ => 1
      let ds := takeDigits (rest.drop esignLen)
      if ds.length = 0 then (0, 0)
      else (1 + esignLen + ds.length, esgn * natOfDigits ds)
    else (0, 0)

/-- Decimal mantissa: a nonempty digit sequence optionally containing one
period.  Returns the consumed length and the exact value. -/
def decMantissa (cs : List Char) : Option (Nat × ℚ) :=
  let ip := takeDigits cs
  match cs.drop ip.length with
  | '.' :: r2 =>
    let fp := takeDigits r2
    if ip.length = 0 && fp.length = 0 then none
    else some (ip.length + 1 + fp.length,
      (natOfDigits ip : ℚ) + (natOfDigits fp : ℚ) / ((10 : ℚ) ^ fp.length))
  | _ =>
    if ip.length = 0 then none
    else some (ip.length, (natOfDigits ip : ℚ))

/-- Hexadecimal mantissa: `0x`/`0X`, then a nonempty hex digit sequence
optionally containing one period.  Returns the consumed length and the
exact value.  When no hex digit follows the prefix, `none` is returned and
the caller falls back to the decimal form (which then consumes the `0`,
matching the longest-valid-subsequence rule). -/
def hexMantissa (cs : List Char) : Option (Nat × ℚ) :=
  match cs with
  | z :: x :: rest =>
    if z = '0' ∧ (x = 'x' ∨ x = 'X') then
      let ip := rest.takeWhile isHexDigitCh
      match rest.drop ip.length with
      | '.' :: r2 =>
        let fp := r2.takeWhile isHexDigitCh
        if ip.length = 0 && fp.length = 0 then none
        else some (2 + ip.length + 1 + fp.length,
          (natOfHexDigits ip : ℚ) + (natOfHexDigits fp : ℚ) / ((16 : ℚ) ^ fp.length))
      | _ =>
        if ip.length = 0 then none
        else some (2 + ip.length, (natOfHexDigits ip : ℚ))
    else none
  | _ => none

/-- Model of `strtof(cs, &end)`: the number of characters consumed and the
value as an exact rational (for the `inf`/`infinity`/`nan` forms the length
is exact and the rational is a placeholder 0, since non-finite floats have
no rational value; no theorem below inspects it). -/
def strtofParse (cs : List Char) : Nat × ℚ :=
  let signLen : Nat := match cs with
    | '+' :: _ => 1
    | '-' :: _ => 1
    | _ => 0
  let sgn : ℚ := match cs with
    | '-' :: _ => -1
    | _ => 1
  let rest := cs.drop signLen
  if ciPrefix ['i','n','f','i','n','i','t','y'] rest then (signLen + 8, 0)
  else if ciPrefix ['i','n','f'] rest then (signLen + 3, 0)
  else if ciPrefix ['n','a','n'] rest then (signLen + 3, 0)
  else
    match hexMantissa rest with
    | some (m, v) =>
      let e := expPart 'p' (rest.drop m)
      (signLen + m + e.1, sgn * v * (2 : ℚ) ^ e.2)
    | none =>
      match decMantissa rest with
      | some (m, v) =>
        let e := expPart 'e' (rest.drop m)
        (signLen + m + e.1, sgn * v * (10 : ℚ) ^ e.2)
      | none => (0, 0)

/-- The lambda `appendText` from `tokenize`.  The C code hands `strtol` /
`strtof` the NUL-terminated buffer starting at `pStart`; since this lambda
is only invoked with a token delimiter (whitespace, parenthesis, quote or
NUL) at offset `pEnd`, and no numeric form can consume a delimiter, the
conversion never advances past `pEnd`, so it is applied to the run
`slice buf pStart pEnd` itself.  Token spans for numeric tokens are
`pStart`/`pEndPtr`, i.e. they cover only the numeric prefix, as in the C
initializers. -/
def appendText (buf : List Char) (pStart pEnd : Nat) (acc : List Tok) :
    Except LexError (List Tok) :=
  if pStart = pEnd then .ok acc
  else
    match searchFirst (slice buf pStart pEnd) fPat with
    | some i =>
      if i + 3 ≠ (slice buf pStart pEnd).length then .error .f32NotAtEnd
      else if (strtofParse (slice buf pStart pEnd)).1 ≠
          (slice buf pStart pEnd).length - 3 then .error .f32ParseFail
      else .ok (acc ++ [⟨.F32, pStart,
        pStart + (strtofParse (slice buf pStart pEnd)).1,
        (strtofParse (slice buf pStart pEnd)).2, 0⟩])
    | none =>
      match searchFirst (slice buf pStart pEnd) iPat with
      | some i =>
        if i + 3 ≠ (slice buf pStart pEnd).length then .error .i32NotAtEnd
        else if (strtolParse (slice buf pStart pEnd)).1 ≠
            (slice buf pStart pEnd).length - 3 then .error .i32ParseFail
        else .ok (acc ++ [⟨.I32, pStart,
          pStart + (strtolParse (slice buf pStart pEnd)).1, 0,
          (strtolParse (slice buf pStart pEnd)).2⟩])
      | none => .ok (acc ++ [⟨.NAME, pStart, pEnd, 0, 0⟩])

/-- The scanning loop of `tokenize`.  The first argument is the whole
buffer (needed by `appendText` to slice runs); the second is the not yet
scanned suffix `buf.drop pos`.  Reaching the end of the list or a NUL
character corresponds to `*pEnd == 0`, where the C code checks
`assert(!inString)` and returns. -/
def tokLoop (buf : List Char) :
    List Char → Nat → Nat → Bool → List Tok → Except LexError (List Tok)
  | [], _, _, inString, acc =>
    if inString then .error .unmatchedQuotes else .ok acc
  | c :: rest, pos, pStart, inString, acc =>
    if c = nulChar then
      if inString then .error .unmatchedQuotes else .ok acc
    else if isWSChar c then
      if inString then tokLoop buf rest (pos + 1) pStart true acc
      else
        match appendText buf pStart pos acc with
        | .error e => .error e
        | .ok acc2 => tokLoop buf rest (pos + 1) (pos + 1) false acc2
    else if c = '(' then
      if inString then tokLoop buf rest (pos + 1) pStart true acc
      else
        match appendText buf pStart pos acc with
        | .error e => .error e
        | .ok acc2 =>
          tokLoop buf rest (pos + 1) (pos + 1) false
            (acc2 ++ [⟨.LP, pos, pos + 1, 0, 0⟩])
    else if c = ')' then
      if inString then tokLoop buf rest (pos + 1) pStart true acc
      else
        match appendText buf pStart pos acc with
        | .error e => .error e
        | .ok acc2 =>
          tokLoop buf rest (pos + 1) (pos + 1) false
            (acc2 ++ [⟨.RP, pos, pos + 1, 0, 0⟩])
    else if c = '"' then
      if inString then
        tokLoop buf rest (pos + 1) (pos + 1) false
          (acc ++ [⟨.STRING, pStart, pos, 0, 0⟩])
      else
        match appendText buf pStart pos acc with
        | .error e => .error e
        | .ok acc2 => tokLoop buf rest (pos + 1) (pos + 1) true acc2
    else tokLoop buf rest (pos + 1) pStart inString acc

/-- The function `tokenize` from VLisp.cpp. -/
def tokenize (buf : List Char) : Except LexError (List Tok) :=
  tokLoop buf buf 0 0 false []

/-- `ListNode` from VLisp.cpp.  `new ListNode` default-initializes the
struct, leaving `isList` and `token` indeterminate; an indeterminate field
is modelled as `none`, a written field as `some`. -/
inductive ListNode where
  | mk (isList : Option Bool) (token : Option Tok) (child : List ListNode)
deriving Repr

/-- At the end of `getLists` every still-open node (created on a `LP` whose
`RP` never arrived) is already linked as the last child of its parent,
because the C code appends the node at creation time; this fold rebuilds
that linking for the functional model, innermost node first. -/
def collapse : List (List ListNode) → List ListNode → List ListNode
  | [], cur => cur
  | parent :: stack, cur => collapse stack (parent ++ [ListNode.mk none none cur])

/-- The token loop of `getLists`.  `stack` holds the children lists of the
ancestors of the current node (innermost first), `cur` the children of the
current node.  On `LP` the C code appends a default-initialized node (its
`isList` stays indeterminate); functionally the completed node is attached
when its `RP` pops it, or by `collapse` at the end of input. -/
def buildLoop : List Tok → List (List ListNode) → List ListNode →
    Except ParseError (List ListNode)
  | [], stack, cur => .ok (collapse stack cur)
  | t :: ts, stack, cur =>
    match t.type with
    | .LP => buildLoop ts (cur :: stack) []
    | .RP =>
      match stack with
      | [] => .error .unbalancedParens
      | parent :: rest => buildLoop ts rest (parent ++ [ListNode.mk none none cur])
    | _ => buildLoop ts stack (cur ++ [ListNode.mk (some false) (some t) []])

/-- The function `getLists` from VLisp.cpp.  The root node is allocated
default-initialized and then `root->isList = true` is assigned; its `token`
field stays indeterminate. -/
def getLists (ts : List Tok) : Except ParseError ListNode :=
  (buildLoop ts [] []).map (fun children => ListNode.mk (some true) none children)

/-- Number of atom nodes (nodes written as `{ false, token }` by the
default branch of `getLists`) in a forest. -/
def atomCountList : List ListNode → Nat
  | [] => 0
  | .mk b _ ch :: ns =>
    (if b = some false then 1 else 0) + atomCountList ch + atomCountList ns

/-- Number of atom nodes in a tree. -/
def atomCountN (n : ListNode) : Nat := atomCountList [n]

/-- Number of `LP` tokens in a sequence. -/
def lpCount : List Tok → Nat
  | [] => 0
  | t :: ts => (if t.type = .LP then 1 else 0) + lpCount ts

/-- Number of `RP` tokens in a sequence. -/
def rpCount : List Tok → Nat
  | [] => 0
  | t :: ts => (if t.type = .RP then 1 else 0) + rpCount ts

/-- Number of tokens that are neither `LP` nor `RP`. -/
def nonParenCount : List Tok → Nat
  | [] => 0
  | t :: ts =>
    (if t.type = .LP ∨ t.type = .RP then 0 else 1) + nonParenCount ts

/-- Parenthesis balance check over a token sequence: fold the nesting depth
left to right, failing when a `RP` arrives at depth zero; the sequence is
balanced when the final depth is zero. -/
def balFold : List Tok → Nat → Option Nat
  | [], d => some d
  | t :: ts, d =>
    match t.type with
    | .LP => balFold ts (d + 1)
    | .RP => if d = 0 then none else balFold ts (d - 1)
    | _ => balFold ts d

/-- Span discipline that the tokenizer does guarantee: `NAME` tokens have a
non-empty span and `LP`/`RP` tokens span exactly one character.  (`STRING`
and numeric tokens can have empty spans: the empty string literal and the
bare-suffix run.) -/
def spanOk (t : Tok) : Prop :=
  (t.type = .NAME → t.start < t.stop) ∧
  ((t.type = .LP ∨ t.type = .RP) → t.stop = t.start + 1)

/-- C1: the claim says a token sequence with an unmatched `LeftParen` makes
the tree builder fail with a `ParseError`, never returning a tree.  The
code of `getLists` has no end-of-input check on its stack: on input `"("`
(token sequence `[LP]`) it returns a tree — the root with one still-open
child node — and no error, contradicting the claim. -/
theorem claim1_unmatched_lp_returns_tree :
    tokenize ['('] = .ok [⟨.LP, 0, 1, 0, 0⟩] ∧
    getLists [⟨.LP, 0, 1, 0, 0⟩] =
      .ok (ListNode.mk (some true) none [ListNode.mk none none []]) :=
  ⟨rfl, rfl⟩

/-- C2: the claim says tokenizing `"42i32"` yields one `Int32` token with
value 42 and `"3.5f32"` one `Float32` token with value 3.5, a pending run
at end of input being closed like any other.  The scanning loop of
`tokenize` never flushes the pending run when it reaches the terminator,
so both inputs yield an empty token sequence; the same runs closed by a
trailing delimiter do yield the claimed tokens. -/
theorem claim2_trailing_run_dropped :
    tokenize ['4','2','i','3','2'] = .ok [] ∧
    tokenize ['3','.','5','f','3','2'] = .ok [] ∧
    tokenize ['4','2','i','3','2',' '] = .ok [⟨.I32, 0, 2, 0, 42⟩] ∧
    tokenize ['3','.','5','f','3','2',' '] = .ok [⟨.F32, 0, 3, 7/2, 0⟩] := by
  refine ⟨rfl, rfl, rfl, ?_⟩
  have h : tokenize ['3','.','5','f','3','2',' '] =
      .ok [⟨.F32, 0, 3, (strtofParse ['3','.','5','f','3','2']).2, 0⟩] := rfl
  have hv : (strtofParse ['3','.','5','f','3','2']).2 = 7/2 := by
    show (1 : ℚ) * ((natOfDigits ['3'] : ℚ) +
        (natOfDigits ['5'] : ℚ) / (10 : ℚ) ^ (1 : Nat)) * (10 : ℚ) ^ (0 : Int) = 7/2
    have h3 : natOfDigits ['3'] = 3 := rfl
    have h5 : natOfDigits ['5'] = 5 := rfl
    rw [h3, h5]
    norm_num
  rw [h, hv]

/-- C3 counterexample: the claim says every non-empty text run not ending
with the suffix `f32`/`i32` becomes a `Name` token without failing, even
when `f32` occurs earlier inside the run (example `xf32y`), and that input
`"42"` yields a single `Name` token.  The code searches for `f32` anywhere
in the run and asserts the first occurrence is at the end, so the run
`xf32y` aborts with a lex error; and the run `42` pending at end of input
is dropped, yielding no token at all. -/
theorem claim3_counterexample :
    tokenize ['x','f','3','2','y',' '] = .error .f32NotAtEnd ∧
    tokenize ['4','2'] = .ok [] :=
  ⟨rfl, rfl⟩

/-- C4: the claim says each `LeftParen` makes the builder append a fresh
node whose discriminant marks it as a List, so every non-atom node of a
returned tree is marked as a List.  The `LP` branch of `getLists` allocates
the node with `new ListNode` and never assigns `isList`, leaving the
discriminant indeterminate (`none` in this model, where the root's
explicitly assigned discriminant is `some true`): on input `"()"` the
returned child node is not marked as a List. -/
theorem claim4_isList_uninitialized :
    tokenize ['(', ')'] = .ok [⟨.LP, 0, 1, 0, 0⟩, ⟨.RP, 1, 2, 0, 0⟩] ∧
    getLists [⟨.LP, 0, 1, 0, 0⟩, ⟨.RP, 1, 2, 0, 0⟩] =
      .ok (ListNode.mk (some true) none [ListNode.mk none none []]) ∧
    (none : Option Bool) ≠ some true :=
  ⟨rfl, rfl, by decide⟩

/-- C5: the claim says a text run ending in `i32`/`f32` whose remaining
prefix does not parse — including an empty prefix — fails with a lex
error and never yields a numeric token with a default value.  For the run
`i32` the prefix is empty, `strtol` performs no conversion and leaves its
end pointer at the start of the run, which coincides with `pEnd - 3`, so
the assert passes and an `Int32` token with the default value 0 and an
empty span is emitted.  (For a non-empty unparsable prefix such as
`abci32` the code does fail, as the second conjunct shows.) -/
theorem claim5_bare_suffix_zero_token :
    tokenize ['i', '3', '2', ' '] = .ok [⟨.I32, 0, 0, 0, 0⟩] ∧
    tokenize ['a', 'b', 'c', 'i', '3', '2', ' '] = .error .i32ParseFail :=
  ⟨rfl, rfl⟩

/-- Processing a token sequence in which, after some prefix, strictly more
`RP` than `LP` tokens (relative to the surplus allowed by the current
stack) have been seen always hits the `RP`-on-empty-stack assert. -/
theorem buildLoop_rp_excess (ts : List Tok) :
    ∀ (stack : List (List ListNode)) (cur : List ListNode) (k : Nat),
      lpCount (ts.take k) + stack.length < rpCount (ts.take k) →
      buildLoop ts stack cur = .error .unbalancedParens := by
  induction ts with
  | nil =>
    intro stack cur k h
    simp [lpCount, rpCount] at h
  | cons t ts ih =>
    intro stack cur k h
    cases k with
    | zero => simp [lpCount, rpCount] at h
    | succ k =>
      rw [List.take_succ_cons] at h
      cases htype : t.type with
      | LP =>
        rw [lpCount, rpCount, htype] at h
        simp only [buildLoop, htype]
        exact ih (cur :: stack) [] k (by simp at h ⊢; omega)
      | RP =>
        rw [lpCount, rpCount, htype] at h
        cases stack with
        | nil => simp [buildLoop, htype]
        | cons parent rest =>
          simp only [buildLoop, htype]
          exact ih rest (parent ++ [ListNode.mk none none cur]) k
            (by simp at h ⊢; omega)
      | NAME =>
        rw [lpCount, rpCount, htype] at h
        simp only [buildLoop, htype]
        exact ih stack (cur ++ [ListNode.mk (some false) (some t) []]) k
          (by simp at h ⊢; omega)
      | STRING =>
        rw [lpCount, rpCount, htype] at h
        simp only [buildLoop, htype]
        exact ih stack (cur ++ [ListNode.mk (some false) (some t) []]) k
          (by simp at h ⊢; omega)
      | I32 =>
        rw [lpCount, rpCount, htype] at h
        simp only [buildLoop, htype]
        exact ih stack (cur ++ [ListNode.mk (some false) (some t) []]) k
          (by simp at h ⊢; omega)
      | F32 =>
        rw [lpCount, rpCount, htype] at h
        simp only [buildLoop, htype]
        exact ih stack (cur ++ [ListNode.mk (some false) (some t) []]) k
          (by simp at h ⊢; omega)

/-- C6: a token sequence in which the running count of `RP` exceeds that of
`LP` at some prefix makes `getLists` fail with the unbalanced-parentheses
error (the `assert` before popping the stack), returning no tree. -/
theorem claim6_unmatched_rp (ts : List Tok) (k : Nat)
    (h : lpCount (ts.take k) < rpCount (ts.take k)) :
    getLists ts = .error .unbalancedParens := by
  have hb := buildLoop_rp_excess ts [] [] k (by simpa using h)
  simp [getLists, hb, Except.map]

/-- Witness for C6 at the one-token sequence of input `")"`. -/
theorem claim6_witness :
    lpCount (([⟨.RP, 0, 1, 0, 0⟩] : List Tok).take 1) <
      rpCount (([⟨.RP, 0, 1, 0, 0⟩] : List Tok).take 1) ∧
    getLists [⟨.RP, 0, 1, 0, 0⟩] = .error .unbalancedParens :=
  ⟨by decide, claim6_unmatched_rp [⟨.RP, 0, 1, 0, 0⟩] 1 (by decide)⟩

/-- Atom counting distributes over forest concatenation. -/
theorem atomCountList_append (xs ys : List ListNode) :
    atomCountList (xs ++ ys) = atomCountList xs + atomCountList ys := by
  induction xs with
  | nil => simp [atomCountList]
  | cons n ns ih =>
    cases n with
    | mk b tk ch => simp [atomCountList, ih]; omega

/-- On a token sequence whose parentheses balance relative to the current
stack depth, the builder loop succeeds and produces exactly one atom node
per non-parenthesis token (in addition to those already accumulated). -/
theorem buildLoop_balanced (ts : List Tok) :
    ∀ (stack : List (List ListNode)) (cur : List ListNode),
      balFold ts stack.length = some 0 →
      ∃ children, buildLoop ts stack cur = .ok children ∧
        atomCountList children =
          atomCountList cur + (stack.map atomCountList).sum + nonParenCount ts := by
  induction ts with
  | nil =>
    intro stack cur h
    simp [balFold] at h
    subst h
    exact ⟨cur, rfl, by simp [nonParenCount, collapse]⟩
  | cons t ts ih =>
    intro stack cur h
    cases htype : t.type with
    | LP =>
      rw [balFold, htype] at h
      obtain ⟨ch, hb, hc⟩ :=
        ih (cur :: stack) [] (by simp only [List.length_cons]; exact h)
      refine ⟨ch, by simp [buildLoop, htype, hb], ?_⟩
      rw [hc]
      simp [atomCountList, nonParenCount, htype]
      try omega
    | RP =>
      rw [balFold, htype] at h
      cases stack with
      | nil => simp at h
      | cons parent rest =>
        simp only [List.length_cons, Nat.add_sub_cancel] at h
        have h0 : ¬ (parent :: rest).length = 0 := by simp
        rw [if_neg (by simp)] at h
        obtain ⟨ch, hb, hc⟩ :=
          ih rest (parent ++ [ListNode.mk none none cur]) (by simpa using h)
        refine ⟨ch, by simp [buildLoop, htype, hb], ?_⟩
        rw [hc, atomCountList_append]
        simp [atomCountList, nonParenCount, htype]
        try omega
    | NAME =>
      rw [balFold, htype] at h
      obtain ⟨ch, hb, hc⟩ := ih stack (cur ++ [ListNode.mk (some false) (some t) []]) h
      refine ⟨ch, by simp [buildLoop, htype, hb], ?_⟩
      rw [hc, atomCountList_append]
      simp [atomCountList, nonParenCount, htype]
      try omega
    | STRING =>
      rw [balFold, htype] at h
      obtain ⟨ch, hb, hc⟩ := ih stack (cur ++ [ListNode.mk (some false) (some t) []]) h
      refine ⟨ch, by simp [buildLoop, htype, hb], ?_⟩
      rw [hc, atomCountList_append]
      simp [atomCountList, nonParenCount, htype]
      try omega
    | I32 =>
      rw [balFold, htype] at h
      obtain ⟨ch, hb, hc⟩ := ih stack (cur ++ [ListNode.mk (some false) (some t) []]) h
      refine ⟨ch, by simp [buildLoop, htype, hb], ?_⟩
      rw [hc, atomCountList_append]
      simp [atomCountList, nonParenCount, htype]
      try omega
    | F32 =>
      rw [balFold, htype] at h
      obtain ⟨ch, hb, hc⟩ := ih stack (cur ++ [ListNode.mk (some false) (some t) []]) h
      refine ⟨ch, by simp [buildLoop, htype, hb], ?_⟩
      rw [hc, atomCountList_append]
      simp [atomCountList, nonParenCount, htype]
      try omega

/-- C7: for a source string that tokenizes without a lex error and whose
parenthesis tokens are balanced, `getLists` succeeds and the number of atom
nodes in the resulting tree equals the number of tokens that are neither
`LP` nor `RP`. -/
theorem claim7_balanced_build (s : List Char) (ts : List Tok)
    (_htok : tokenize s = .ok ts) (hbal : balFold ts 0 = some 0) :
    ∃ r, getLists ts = .ok r ∧ atomCountN r = nonParenCount ts := by
  obtain ⟨children, hb, hc⟩ :=
    buildLoop_balanced ts [] [] (by simpa using hbal)
  refine ⟨ListNode.mk (some true) none children, by simp [getLists, hb, Except.map], ?_⟩
  simp [atomCountN, atomCountList] at hc ⊢
  omega

/-- Witness for C7 at the input `"(a)"`. -/
theorem claim7_witness :
    tokenize ['(', 'a', ')'] =
      .ok [⟨.LP, 0, 1, 0, 0⟩, ⟨.NAME, 1, 2, 0, 0⟩, ⟨.RP, 2, 3, 0, 0⟩] ∧
    balFold [⟨.LP, 0, 1, 0, 0⟩, ⟨.NAME, 1, 2, 0, 0⟩, ⟨.RP, 2, 3, 0, 0⟩] 0 = some 0 ∧
    ∃ r, getLists [⟨.LP, 0, 1, 0, 0⟩, ⟨.NAME, 1, 2, 0, 0⟩, ⟨.RP, 2, 3, 0, 0⟩] = .ok r ∧
      atomCountN r = nonParenCount
        [⟨.LP, 0, 1, 0, 0⟩, ⟨.NAME, 1, 2, 0, 0⟩, ⟨.RP, 2, 3, 0, 0⟩] :=
  ⟨rfl, rfl, claim7_balanced_build ['(', 'a', ')'] _ rfl rfl⟩

/-- C8 counterexample: the claim says every token produced by the
tokenizer has a non-empty span.  The empty string literal `""` produces a
`String` token whose span is the empty body between the two quotes. -/
theorem claim8_counterexample :
    tokenize ['"', '"'] = .ok [⟨.STRING, 1, 1, 0, 0⟩] ∧
    slice ['"', '"'] 1 1 = [] :=
  ⟨rfl, rfl⟩

/-- Tokens appended by `appendText` satisfy the span discipline: the
`NAME` branch is guarded by `pStart != pEnd`, and numeric and string
tokens are unconstrained by `spanOk`. -/
theorem appendText_spanOk (buf : List Char) (pStart pEnd : Nat)
    (acc acc2 : List Tok) (hle : pStart ≤ pEnd)
    (hacc : ∀ t ∈ acc, spanOk t)
    (h : appendText buf pStart pEnd acc = .ok acc2) :
    ∀ t ∈ acc2, spanOk t := by
  unfold appendText at h
  split at h
  · cases h; exact hacc
  · rename_i hne
    split at h
    · split at h
      · cases h
      · split at h
        · cases h
        · cases h
          intro t ht
          rcases List.mem_append.mp ht with h1 | h2
          · exact hacc t h1
          · simp at h2
            subst h2
            simp [spanOk]
    · split at h
      · split at h
        · cases h
        · split at h
          · cases h
          · cases h
            intro t ht
            rcases List.mem_append.mp ht with h1 | h2
            · exact hacc t h1
            · simp at h2
              subst h2
              simp [spanOk]
      · cases h
        intro t ht
        rcases List.mem_append.mp ht with h1 | h2
        · exact hacc t h1
        · simp at h2
          subst h2
          simp [spanOk]
          omega

/-- Every token in a successful scan satisfies the span discipline,
provided the pending-run marker does not exceed the scan position (the
loop maintains this). -/
theorem tokLoop_spanOk (buf : List Char) :
    ∀ (rest : List Char) (pos pStart : Nat) (inString : Bool)
      (acc ts : List Tok),
      pStart ≤ pos → (∀ t ∈ acc, spanOk t) →
      tokLoop buf rest pos pStart inString acc = .ok ts →
      ∀ t ∈ ts, spanOk t := by
  intro rest
  induction rest with
  | nil =>
    intro pos pStart inString acc ts _ hacc h
    unfold tokLoop at h
    split at h
    · cases h
    · cases h; exact hacc
  | cons c cs ih =>
    intro pos pStart inString acc ts hle hacc h
    unfold tokLoop at h
    split at h
    · split at h
      · cases h
      · cases h; exact hacc
    · split at h
      · split at h
        · exact ih (pos + 1) pStart true acc ts (Nat.le_succ_of_le hle) hacc h
        · split at h
          · cases h
          · rename_i acc2 happ
            exact ih (pos + 1) (pos + 1) false acc2 ts (Nat.le_refl _)
              (appendText_spanOk buf pStart pos acc acc2 hle hacc happ) h
      · split at h
        · split at h
          · exact ih (pos + 1) pStart true acc ts (Nat.le_succ_of_le hle) hacc h
          · split at h
            · cases h
            · rename_i acc2 happ
              refine ih (pos + 1) (pos + 1) false _ ts (Nat.le_refl _) ?_ h
              intro t ht
              rcases List.mem_append.mp ht with h1 | h2
              · exact appendText_spanOk buf pStart pos acc acc2 hle hacc happ t h1
              · simp at h2
                subst h2
                simp [spanOk]
        · split at h
          · split at h
            · exact ih (pos + 1) pStart true acc ts (Nat.le_succ_of_le hle) hacc h
            · split at h
              · cases h
              · rename_i acc2 happ
                refine ih (pos + 1) (pos + 1) false _ ts (Nat.le_refl _) ?_ h
                intro t ht
                rcases List.mem_append.mp ht with h1 | h2
                · exact appendText_spanOk buf pStart pos acc acc2 hle hacc happ t h1
                · simp at h2
                  subst h2
                  simp [spanOk]
          · split at h
            · split at h
              · refine ih (pos + 1) (pos + 1) false _ ts (Nat.le_refl _) ?_ h
                intro t ht
                rcases List.mem_append.mp ht with h1 | h2
                · exact hacc t h1
                · simp at h2
                  subst h2
                  simp [spanOk]
              · split at h
                · cases h
                · rename_i acc2 happ
                  exact ih (pos + 1) (pos + 1) true acc2 ts (Nat.le_refl _)
                    (appendText_spanOk buf pStart pos acc acc2 hle hacc happ) h
            · exact ih (pos + 1) pStart inString acc ts (Nat.le_succ_of_le hle) hacc h

/-- C8 amended: in every successful tokenization, each `NAME` token has a
non-empty span and each `LP`/`RP` token spans exactly one character;
`STRING` and numeric tokens may have empty spans (empty string literal,
bare numeric suffix). -/
theorem claim8_amended (buf : List Char) (ts : List Tok)
    (h : tokenize buf = .ok ts) : ∀ t ∈ ts, spanOk t :=
  tokLoop_spanOk buf buf 0 0 false [] ts (Nat.le_refl 0) (by simp) h

/-- Scanning a segment of plain run characters (no NUL, whitespace,
parenthesis or quote) only advances the position; the pending-run marker,
string state and accumulator are untouched. -/
theorem tokLoop_plain_chars (buf : List Char) :
    ∀ (run rest : List Char) (pos pStart : Nat) (inString : Bool) (acc : List Tok),
      (∀ c ∈ run, c ≠ nulChar ∧ isWSChar c = false ∧ c ≠ '(' ∧ c ≠ ')' ∧ c ≠ '"') →
      tokLoop buf (run ++ rest) pos pStart inString acc =
        tokLoop buf rest (pos + run.length) pStart inString acc := by
  intro run
  induction run with
  | nil => intro rest pos pStart inString acc _; simp
  | cons c cs ih =>
    intro rest pos pStart inString acc hrun
    obtain ⟨h1, h2, h3, h4, h5⟩ := hrun c (List.mem_cons_self c cs)
    rw [List.cons_append]
    simp only [tokLoop]
    rw [if_neg h1, if_neg (by simp [h2]), if_neg h3, if_neg h4, if_neg h5]
    rw [ih rest (pos + 1) pStart inString acc
      (fun d hd => hrun d (List.mem_cons_of_mem c hd))]
    simp only [List.length_cons]
    rw [show pos + (cs.length + 1) = pos + 1 + cs.length from by omega]

/-- Scanning a segment of string-body characters (no NUL, no quote) in the
in-string state only advances the position: whitespace and parentheses are
part of the body, not delimiters. -/
theorem tokLoop_string_chars (buf : List Char) :
    ∀ (body rest : List Char) (pos pStart : Nat) (acc : List Tok),
      (∀ c ∈ body, c ≠ nulChar ∧ c ≠ '"') →
      tokLoop buf (body ++ rest) pos pStart true acc =
        tokLoop buf rest (pos + body.length) pStart true acc := by
  intro body
  induction body with
  | nil => intro rest pos pStart acc _; simp
  | cons c cs ih =>
    intro rest pos pStart acc hbody
    obtain ⟨h1, h5⟩ := hbody c (List.mem_cons_self c cs)
    have hrec := ih rest (pos + 1) pStart acc
      (fun d hd => hbody d (List.mem_cons_of_mem c hd))
    have harith : pos + (cs.length + 1) = pos + 1 + cs.length := by omega
    rw [List.cons_append]
    simp only [tokLoop]
    rw [if_neg h1]
    by_cases hw : isWSChar c
    · rw [if_pos hw, if_pos True.intro, hrec]
      simp only [List.length_cons]
      rw [harith]
    · rw [if_neg hw]
      by_cases hp : c = '('
      · rw [if_pos hp, if_pos True.intro, hrec]
        simp only [List.length_cons]
        rw [harith]
      · rw [if_neg hp]
        by_cases hq : c = ')'
        · rw [if_pos hq, if_pos True.intro, hrec]
          simp only [List.length_cons]
          rw [harith]
        · rw [if_neg hq, if_neg h5, hrec]
          simp only [List.length_cons]
          rw [harith]

/-- C3 amended: a non-empty text run closed by a delimiter that contains no
occurrence of "f32" or "i32" anywhere is emitted as a single `Name` token
spanning the whole run.  (The original claim fails both for runs with an
internal occurrence, which abort, and for runs pending at end of input,
which are dropped; see the counterexample.) -/
theorem claim3_amended_no_occurrence_name (run : List Char)
    (hne : run ≠ [])
    (hchars : ∀ c ∈ run, c ≠ nulChar ∧ isWSChar c = false ∧ c ≠ '(' ∧ c ≠ ')' ∧ c ≠ '"')
    (hf : searchFirst run fPat = none) (hi : searchFirst run iPat = none) :
    tokenize (run ++ [' ']) = .ok [⟨.NAME, 0, run.length, 0, 0⟩] := by
  unfold tokenize
  rw [tokLoop_plain_chars (run ++ [' ']) run [' '] 0 0 false [] hchars, Nat.zero_add]
  have hlen : run.length ≠ 0 := fun h => hne (List.eq_nil_of_length_eq_zero h)
  have hslice : slice (run ++ [' ']) 0 run.length = run := by
    unfold slice
    rw [List.drop_zero, List.take_left]
  have happ : appendText (run ++ [' ']) 0 run.length [] =
      .ok [⟨.NAME, 0, run.length, 0, 0⟩] := by
    unfold appendText
    rw [if_neg (fun h => hlen h.symm), hslice, hf, hi]
    rfl
  simp only [tokLoop]
  rw [if_neg (by decide), if_pos (by decide), if_neg (by decide), happ]
  rfl

/-- Witness for the amended C3 at the run `42` (so input `"42 "`). -/
theorem claim3_amended_witness :
    (['4', '2'] : List Char) ≠ [] ∧
    (∀ c ∈ (['4', '2'] : List Char),
      c ≠ nulChar ∧ isWSChar c = false ∧ c ≠ '(' ∧ c ≠ ')' ∧ c ≠ '"') ∧
    searchFirst ['4', '2'] fPat = none ∧
    searchFirst ['4', '2'] iPat = none ∧
    tokenize ['4', '2', ' '] = .ok [⟨.NAME, 0, 2, 0, 0⟩] :=
  ⟨by decide, by decide, by decide, by decide,
    claim3_amended_no_occurrence_name ['4', '2'] (by decide) (by decide)
      (by decide) (by decide)⟩

/-- `appendText` with an empty pending run appends nothing. -/
theorem appendText_self (buf : List Char) (p : Nat) (acc : List Tok) :
    appendText buf p p acc = .ok acc := by
  unfold appendText
  rw [if_pos rfl]

/-- One scan step on `(` outside a string with no pending run: emit a
one-character `LP` token. -/
theorem tokLoop_lp_step (buf : List Char) (r : List Char) (pos : Nat)
    (acc : List Tok) :
    tokLoop buf ('(' :: r) pos pos false acc =
      tokLoop buf r (pos + 1) (pos + 1) false
        (acc ++ [⟨.LP, pos, pos + 1, 0, 0⟩]) := by
  simp only [tokLoop]
  rw [if_neg (by decide), if_neg (by decide), if_pos (by decide),
    if_neg (by decide), appendText_self]

/-- One scan step on `)` outside a string with no pending run: emit a
one-character `RP` token. -/
theorem tokLoop_rp_step (buf : List Char) (r : List Char) (pos : Nat)
    (acc : List Tok) :
    tokLoop buf (')' :: r) pos pos false acc =
      tokLoop buf r (pos + 1) (pos + 1) false
        (acc ++ [⟨.RP, pos, pos + 1, 0, 0⟩]) := by
  simp only [tokLoop]
  rw [if_neg (by decide), if_neg (by decide), if_neg (by decide),
    if_pos (by decide), if_neg (by decide), appendText_self]

/-- One scan step on an opening quote with no pending run: switch to the
in-string state, the quote itself not part of any span. -/
theorem tokLoop_quote_open_step (buf : List Char) (r : List Char) (pos : Nat)
    (acc : List Tok) :
    tokLoop buf ('"' :: r) pos pos false acc =
      tokLoop buf r (pos + 1) (pos + 1) true acc := by
  simp only [tokLoop]
  rw [if_neg (by decide), if_neg (by decide), if_neg (by decide),
    if_neg (by decide), if_pos (by decide), if_neg (by decide), appendText_self]

/-- One scan step on the closing quote: emit a `String` token spanning the
body only (from the character after the opening quote up to, excluding,
the closing quote). -/
theorem tokLoop_quote_close_step (buf : List Char) (r : List Char)
    (pos pStart : Nat) (acc : List Tok) :
    tokLoop buf ('"' :: r) pos pStart true acc =
      tokLoop buf r (pos + 1) (pos + 1) false
        (acc ++ [⟨.STRING, pStart, pos, 0, 0⟩]) := by
  simp only [tokLoop]
  rw [if_neg (by decide), if_neg (by decide), if_neg (by decide),
    if_neg (by decide), if_pos (by decide), if_pos (by decide)]

/-- C9: for every string body free of quotes and NUL, the input
`("<body>")` tokenizes to `LP`, a `String` token spanning exactly the body
(both quote characters excluded), and `RP`; the span recovers the body
verbatim, embedded whitespace and parentheses included; and the tree is
one top-level list containing exactly one `String` atom. -/
theorem claim9_string_body (body : List Char)
    (hbody : ∀ c ∈ body, c ≠ nulChar ∧ c ≠ '"') :
    tokenize ('(' :: '"' :: (body ++ ['"', ')'])) =
      .ok [⟨.LP, 0, 1, 0, 0⟩, ⟨.STRING, 2, 2 + body.length, 0, 0⟩,
        ⟨.RP, 2 + body.length + 1, 2 + body.length + 1 + 1, 0, 0⟩] ∧
    slice ('(' :: '"' :: (body ++ ['"', ')'])) 2 (2 + body.length) = body ∧
    getLists [⟨.LP, 0, 1, 0, 0⟩, ⟨.STRING, 2, 2 + body.length, 0, 0⟩,
        ⟨.RP, 2 + body.length + 1, 2 + body.length + 1 + 1, 0, 0⟩] =
      .ok (ListNode.mk (some true) none
        [ListNode.mk none none
          [ListNode.mk (some false) (some ⟨.STRING, 2, 2 + body.length, 0, 0⟩) []]]) := by
  refine ⟨?_, ?_, rfl⟩
  · unfold tokenize
    rw [tokLoop_lp_step, tokLoop_quote_open_step]
    rw [tokLoop_string_chars _ body ['"', ')']]
    · rw [tokLoop_quote_close_step, tokLoop_rp_step]
      rfl
    · exact hbody
  · unfold slice
    rw [show 2 + body.length = body.length + 1 + 1 from by omega]
    rw [List.take_succ_cons, List.take_succ_cons, List.take_left]
    rfl

/-- Witness for C9 at the body `a ( b`, i.e. the spec's example input
`("a ( b")`. -/
theorem claim9_witness :
    (∀ c ∈ (['a', ' ', '(', ' ', 'b'] : List Char), c ≠ nulChar ∧ c ≠ '"') ∧
    (tokenize ['(', '"', 'a', ' ', '(', ' ', 'b', '"', ')'] =
      .ok [⟨.LP, 0, 1, 0, 0⟩, ⟨.STRING, 2, 7, 0, 0⟩, ⟨.RP, 8, 9, 0, 0⟩] ∧
    slice ['(', '"', 'a', ' ', '(', ' ', 'b', '"', ')'] 2 7 = ['a', ' ', '(', ' ', 'b'] ∧
    getLists [⟨.LP, 0, 1, 0, 0⟩, ⟨.STRING, 2, 7, 0, 0⟩, ⟨.RP, 8, 9, 0, 0⟩] =
      .ok (ListNode.mk (some true) none
        [ListNode.mk none none
          [ListNode.mk (some false) (some ⟨.STRING, 2, 7, 0, 0⟩) []]])) :=
  ⟨by decide, claim9_string_body ['a', ' ', '(', ' ', 'b'] (by decide)⟩

/-- Witness for the amended C8 on the input `"x (y)"`. -/
theorem claim8_amended_witness :
    tokenize ['x', ' ', '(', 'y', ')'] =
      .ok [⟨.NAME, 0, 1, 0, 0⟩, ⟨.LP, 2, 3, 0, 0⟩,
        ⟨.NAME, 3, 4, 0, 0⟩, ⟨.RP, 4, 5, 0, 0⟩] ∧
    (∀ t ∈ [(⟨.NAME, 0, 1, 0, 0⟩ : Tok), ⟨.LP, 2, 3, 0, 0⟩,
        ⟨.NAME, 3, 4, 0, 0⟩, ⟨.RP, 4, 5, 0, 0⟩], spanOk t) :=
  ⟨rfl, claim8_amended ['x', ' ', '(', 'y', ')'] _ rfl⟩

/-- Slicing below the append point ignores the appended tail. -/
theorem slice_append_le (a b : List Char) (s e : Nat) (he : e ≤ a.length) :
    slice (a ++ b) s e = slice a s e := by
  unfold slice
  rw [List.take_append_of_le_length he]

/-- `appendText` reads the buffer only through the slice of the pending
run, so appending anything after position `pEnd` does not change it. -/
theorem appendText_append (a b : List Char) (pStart pos : Nat)
    (acc : List Tok) (he : pos ≤ a.length) :
    appendText (a ++ b) pStart pos acc = appendText a pStart pos acc := by
  unfold appendText
  rw [slice_append_le a b pStart pos he]

/-- Scanning the buffer `a ++ NUL :: b` behaves exactly like scanning `a`:
the loop stops at the first NUL, and every pending-run slice it takes lies
before that NUL. -/
theorem tokLoop_nul_cut (a b : List Char) (hnul : nulChar ∉ a) :
    ∀ (t : List Char) (pos pStart : Nat) (inString : Bool) (acc : List Tok),
      a.drop pos = t → pos ≤ a.length →
      tokLoop (a ++ nulChar :: b) (t ++ nulChar :: b) pos pStart inString acc =
        tokLoop a t pos pStart inString acc := by
  intro t
  induction t with
  | nil =>
    intro pos pStart inString acc _ _
    simp only [List.nil_append, tokLoop]
    rw [if_pos True.intro]
  | cons c t ih =>
    intro pos pStart inString acc hdrop hle
    have hcmem : c ∈ a :=
      List.mem_of_mem_drop (by rw [hdrop]; exact List.mem_cons_self c t)
    have hcnul : c ≠ nulChar := fun h => hnul (h ▸ hcmem)
    have hlt : pos < a.length := by
      by_contra hcon
      have hnil : a.drop pos = [] := List.drop_eq_nil_of_le (by omega)
      rw [hdrop] at hnil
      cases hnil
    have hdrop2 : a.drop (pos + 1) = t := by
      have h1 := congrArg (List.drop 1) hdrop
      rw [List.drop_drop] at h1
      simpa using h1
    have hApp : appendText (a ++ nulChar :: b) pStart pos acc =
        appendText a pStart pos acc :=
      appendText_append a (nulChar :: b) pStart pos acc (Nat.le_of_lt hlt)
    rw [List.cons_append]
    simp only [tokLoop]
    rw [if_neg hcnul, if_neg hcnul]
    by_cases hw : isWSChar c
    · rw [if_pos hw, if_pos hw]
      by_cases hs : inString
      · rw [if_pos hs, if_pos hs]
        exact ih (pos + 1) pStart true acc hdrop2 (by omega)
      · rw [if_neg hs, if_neg hs, hApp]
        cases happ : appendText a pStart pos acc with
        | error e => simp only [happ]
        | ok acc2 =>
          simp only [happ]
          exact ih (pos + 1) (pos + 1) false acc2 hdrop2 (by omega)
    · rw [if_neg hw, if_neg hw]
      by_cases hp : c = '('
      · rw [if_pos hp, if_pos hp]
        by_cases hs : inString
        · rw [if_pos hs, if_pos hs]
          exact ih (pos + 1) pStart true acc hdrop2 (by omega)
        · rw [if_neg hs, if_neg hs, hApp]
          cases happ : appendText a pStart pos acc with
          | error e => simp only [happ]
          | ok acc2 =>
            simp only [happ]
            exact ih (pos + 1) (pos + 1) false
              (acc2 ++ [⟨.LP, pos, pos + 1, 0, 0⟩]) hdrop2 (by omega)
      · rw [if_neg hp, if_neg hp]
        by_cases hq : c = ')'
        · rw [if_pos hq, if_pos hq]
          by_cases hs : inString
          · rw [if_pos hs, if_pos hs]
            exact ih (pos + 1) pStart true acc hdrop2 (by omega)
          · rw [if_neg hs, if_neg hs, hApp]
            cases happ : appendText a pStart pos acc with
            | error e => simp only [happ]
            | ok acc2 =>
              simp only [happ]
              exact ih (pos + 1) (pos + 1) false
                (acc2 ++ [⟨.RP, pos, pos + 1, 0, 0⟩]) hdrop2 (by omega)
        · rw [if_neg hq, if_neg hq]
          by_cases hd : c = '"'
          · rw [if_pos hd, if_pos hd]
            by_cases hs : inString
            · rw [if_pos hs, if_pos hs]
              exact ih (pos + 1) (pos + 1) false
                (acc ++ [⟨.STRING, pStart, pos, 0, 0⟩]) hdrop2 (by omega)
            · rw [if_neg hs, if_neg hs, hApp]
              cases happ : appendText a pStart pos acc with
              | error e => simp only [happ]
              | ok acc2 =>
                simp only [happ]
                exact ih (pos + 1) (pos + 1) true acc2 hdrop2 (by omega)
          · rw [if_neg hd, if_neg hd]
            exact ih (pos + 1) pStart inString acc hdrop2 (by omega)

/-- C10: the tokenizer treats its input as a NUL-terminated string — for a
buffer containing a NUL, the result (token sequence or lex error) is
exactly that of the prefix before the first NUL, and nothing at or after
the NUL contributes. -/
theorem claim10_nul_terminated (a b : List Char) (hnul : nulChar ∉ a) :
    tokenize (a ++ nulChar :: b) = tokenize a := by
  unfold tokenize
  have h := tokLoop_nul_cut a b hnul a 0 0 false [] (by simp) (by simp)
  simpa using h

/-- Witness for C10: the buffer `x NUL y` tokenizes exactly like `x`. -/
theorem claim10_witness :
    nulChar ∉ (['x'] : List Char) ∧
    tokenize (['x'] ++ nulChar :: ['y']) = tokenize ['x'] :=
  ⟨by decide, claim10_nul_terminated ['x'] ['y'] (by decide)⟩

end VLisp
